import Mathlib

/-!
Shallow embedding of `src/app.py` (presence-tracking service).

The registry `_presence : Dict[str, Presence]` is modelled as an association
list with unique keys (`WF`), timestamps as `Int` (Python ints are unbounded).
Dict assignment is `dictSet` (replace in place if the key exists, else append,
matching CPython's insertion-order semantics), `dict.pop` is `dictPop`, and
`list.sort()` on strings is `sortAsc` (insertion sort over the lexicographic
order on `String`; Python's sort is likewise an ascending comparison sort, and
all stated properties depend only on sortedness and permutation).
-/

structure Presence where
  last_seen : Int
  last_activity : Int
deriving DecidableEq, Repr

abbrev Registry := List (String × Presence)

def LAST_SEEN_TTL_SECONDS : Int := 60

def IDLE_THRESHOLD_SECONDS : Int := 60

def SSE_BROADCAST_INTERVAL_SECONDS : Int := 2

/-- The keys of the registry, in insertion order (Python `dict` iteration order). -/
def keys (reg : Registry) : List String := reg.map Prod.fst

/-- Well-formedness: a Python `dict` has unique keys. -/
def WF (reg : Registry) : Prop := (keys reg).Nodup

/-- Model of `_presence.get(uid)`: the entry stored under `uid`, if any. -/
def dictGet (reg : Registry) (uid : String) : Option Presence :=
  (reg.find? (fun kv => decide (kv.1 = uid))).map Prod.snd

/-- Model of `_presence[uid] = p`: replace in place if present, else append (CPython dicts
keep the existing key's position on overwrite and append new keys at the end). -/
def dictSet (reg : Registry) (uid : String) (p : Presence) : Registry :=
  if (keys reg).contains uid then
    reg.map (fun kv => if kv.1 = uid then (uid, p) else kv)
  else
    reg ++ [(uid, p)]

/-- Model of `_presence.pop(uid, None)`: remove the entry stored under `uid`, if any. -/
def dictPop (reg : Registry) (uid : String) : Registry :=
  reg.eraseP (fun kv => decide (kv.1 = uid))

/-- Model of `_update_presence` (app.py lines 43-51).  The local `existing` in the source
is computed but never used, so it does not appear here. -/
def update_presence (reg : Registry) (uid : String) (timestamp : Int)
    (last_activity : Option Int) : Registry :=
  let resolved_activity :=
    match last_activity with
    | none => timestamp
    | some a => a
  dictSet reg uid { last_seen := timestamp, last_activity := resolved_activity }

/-- The scan loop of `_prune_and_snapshot` (app.py lines 62-70): one pass over
the registry items appending each uid to exactly one of `(stale, active, idle)`. -/
def classifyLoop (last_seen_cutoff idle_cutoff : Int) :
    Registry → List String × List String × List String
  | [] => ([], [], [])
  | (uid, data) :: rest =>
    let r := classifyLoop last_seen_cutoff idle_cutoff rest
    if data.last_seen < last_seen_cutoff then (uid :: r.1, r.2.1, r.2.2)
    else if data.last_activity ≥ idle_cutoff then (r.1, uid :: r.2.1, r.2.2)
    else (r.1, r.2.1, uid :: r.2.2)

/-- Model of `active.sort()` / `idle.sort()`: ascending lexicographic sort of strings. -/
def sortAsc (l : List String) : List String :=
  List.insertionSort (· ≤ ·) l

/-- Model of `_prune_and_snapshot` (app.py lines 54-77): scan and classify every entry,
pop the stale uids from the registry, sort both output lists.  Returns
`((active, idle), registry after pruning)`. -/
def prune_and_snapshot (reg : Registry) (current_ts : Int) :
    (List String × List String) × Registry :=
  let last_seen_cutoff := current_ts - LAST_SEEN_TTL_SECONDS
  let idle_cutoff := current_ts - IDLE_THRESHOLD_SECONDS
  let c := classifyLoop last_seen_cutoff idle_cutoff reg
  let reg2 := c.1.foldl dictPop reg
  ((sortAsc c.2.1, sortAsc c.2.2), reg2)

/-- The stale test of the scan loop (line 63), as a Bool predicate on an item. -/
def staleB (last_seen_cutoff : Int) (kv : String × Presence) : Bool :=
  decide (kv.2.last_seen < last_seen_cutoff)

/-- An item the scan loop sends to `active` (lines 63 and 67). -/
def activeB (last_seen_cutoff idle_cutoff : Int) (kv : String × Presence) : Bool :=
  !staleB last_seen_cutoff kv && decide (kv.2.last_activity ≥ idle_cutoff)

/-- An item the scan loop sends to `idle` (lines 63, 67 and 69). -/
def idleB (last_seen_cutoff idle_cutoff : Int) (kv : String × Presence) : Bool :=
  !staleB last_seen_cutoff kv && !decide (kv.2.last_activity ≥ idle_cutoff)

/-- One scheduler step of a subscriber loop: either the `try` body completes (a
normal tick that read wall-clock time `t`), or an unexpected exception is
raised and the `except` branch runs, re-reading the clock as `terr`. -/
inductive StepOutcome where
  | tick (t : Int)
  | fail (terr : Int)
deriving DecidableEq, Repr

/-- The JSON object the broadcaster emits per event (app.py lines 153-160 and
167-175): the normal payload has `error = none`, the terminal payload carries
`error = some "internal_error"`. -/
structure EventPayload where
  ts : Int
  online_total : Nat
  active_total : Nat
  idle_total : Nat
  active_uids : List String
  idle_uids : List String
  error : Option String
deriving DecidableEq, Repr

/-- Build one event payload the way both branches of `event_stream` do. -/
def mkPayload (ts : Int) (active_uids idle_uids : List String)
    (error : Option String) : EventPayload :=
  { ts := ts
    online_total := active_uids.length + idle_uids.length
    active_total := active_uids.length
    idle_total := idle_uids.length
    active_uids := active_uids
    idle_uids := idle_uids
    error := error }

/-- Model of `event_stream` (app.py lines 148-177), run over an explicit schedule of
step outcomes: each normal tick snapshots, emits one event and suspends; on a
failure the `except` branch emits one final error-flagged event built from a
freshly recomputed snapshot and returns, ignoring the remaining schedule.
Returns the emitted events and the registry after the run. -/
def event_stream (reg : Registry) : List StepOutcome → List EventPayload × Registry
  | [] => ([], reg)
  | StepOutcome.tick t :: rest =>
      let s := prune_and_snapshot reg t
      let r := event_stream s.2 rest
      (mkPayload t s.1.1 s.1.2 none :: r.1, r.2)
  | StepOutcome.fail terr :: _ =>
      let s := prune_and_snapshot reg terr
      ([mkPayload terr s.1.1 s.1.2 (some "internal_error")], s.2)

lemma classifyLoop_stale (lsc ic : Int) (reg : Registry) :
    (classifyLoop lsc ic reg).1 = (reg.filter (staleB lsc)).map Prod.fst := by
  induction reg with
  | nil => rfl
  | cons kv rest ih =>
    obtain ⟨uid, data⟩ := kv
    by_cases h1 : data.last_seen < lsc
    · simp [classifyLoop, staleB, h1, ih, List.filter]
    · by_cases h2 : data.last_activity ≥ ic <;>
        simp [classifyLoop, staleB, h1, h2, ih, List.filter]

lemma classifyLoop_active (lsc ic : Int) (reg : Registry) :
    (classifyLoop lsc ic reg).2.1 = (reg.filter (activeB lsc ic)).map Prod.fst := by
  induction reg with
  | nil => rfl
  | cons kv rest ih =>
    obtain ⟨uid, data⟩ := kv
    by_cases h1 : data.last_seen < lsc
    · simp [classifyLoop, activeB, staleB, h1, ih, List.filter]
    · by_cases h2 : data.last_activity ≥ ic <;>
        simp [classifyLoop, activeB, staleB, h1, h2, ih, List.filter]

lemma classifyLoop_idle (lsc ic : Int) (reg : Registry) :
    (classifyLoop lsc ic reg).2.2 = (reg.filter (idleB lsc ic)).map Prod.fst := by
  induction reg with
  | nil => rfl
  | cons kv rest ih =>
    obtain ⟨uid, data⟩ := kv
    by_cases h1 : data.last_seen < lsc
    · simp [classifyLoop, idleB, staleB, h1, ih, List.filter]
    · by_cases h2 : data.last_activity ≥ ic <;>
        simp [classifyLoop, idleB, staleB, h1, h2, ih, List.filter]

lemma mem_sortAsc {a : String} {l : List String} : a ∈ sortAsc l ↔ a ∈ l :=
  (List.perm_insertionSort _ l).mem_iff

lemma WF_filter {reg : Registry} (p : String × Presence → Bool) (h : WF reg) :
    WF (reg.filter p) :=
  List.Nodup.sublist ((List.filter_sublist reg).map Prod.fst) h

lemma key_inj {reg : Registry} (h : WF reg) {kv kv' : String × Presence}
    (h1 : kv ∈ reg) (h2 : kv' ∈ reg) (hk : kv.1 = kv'.1) : kv = kv' :=
  List.inj_on_of_nodup_map h h1 h2 hk

lemma dictPop_eq_filter {reg : Registry} (u : String) (h : WF reg) :
    dictPop reg u = reg.filter (fun kv => !decide (kv.1 = u)) := by
  induction reg with
  | nil => rfl
  | cons kv rest ih =>
    have hwf : WF rest := (List.nodup_cons.mp h).2
    by_cases hk : kv.1 = u
    · have hnotin : kv.1 ∉ keys rest := by
        simpa [keys] using (List.nodup_cons.mp h).1
      have : rest.filter (fun kv2 => !decide (kv2.1 = u)) = rest := by
        apply List.filter_eq_self.mpr
        intro kv2 hmem
        simp only [Bool.not_eq_true', decide_eq_false_iff_not]
        intro heq
        exact hnotin (by simpa [keys, hk, ← heq] using List.mem_map_of_mem Prod.fst hmem)
      simp [dictPop, List.filter, hk, this]
    · simp [dictPop, List.filter, hk, ← ih hwf]

lemma foldl_dictPop_eq_filter (us : List String) (reg : Registry) (h : WF reg) :
    us.foldl dictPop reg = reg.filter (fun kv => !us.contains kv.1) := by
  induction us generalizing reg with
  | nil => simp [List.filter_eq_self]
  | cons u us ih =>
    have h2 : WF (reg.filter (fun kv => !decide (kv.1 = u))) := WF_filter _ h
    rw [List.foldl_cons, dictPop_eq_filter u h, ih _ h2, List.filter_filter]
    apply List.filter_congr
    intro kv _
    simp [List.contains_cons, Bool.not_or, eq_comm, Bool.and_comm]

lemma snap_active (reg : Registry) (ts : Int) :
    (prune_and_snapshot reg ts).1.1
      = sortAsc ((reg.filter (activeB (ts - LAST_SEEN_TTL_SECONDS)
          (ts - IDLE_THRESHOLD_SECONDS))).map Prod.fst) := by
  simp [prune_and_snapshot, classifyLoop_active]

lemma snap_idle (reg : Registry) (ts : Int) :
    (prune_and_snapshot reg ts).1.2
      = sortAsc ((reg.filter (idleB (ts - LAST_SEEN_TTL_SECONDS)
          (ts - IDLE_THRESHOLD_SECONDS))).map Prod.fst) := by
  simp [prune_and_snapshot, classifyLoop_idle]

lemma mem_snap_active {u : String} {reg : Registry} {ts : Int} :
    u ∈ (prune_and_snapshot reg ts).1.1
      ↔ ∃ kv ∈ reg, kv.1 = u ∧ activeB (ts - LAST_SEEN_TTL_SECONDS)
          (ts - IDLE_THRESHOLD_SECONDS) kv = true := by
  rw [snap_active, mem_sortAsc]
  simp only [List.mem_map, List.mem_filter]
  constructor
  · rintro ⟨kv, ⟨hm, hb⟩, rfl⟩; exact ⟨kv, hm, rfl, hb⟩
  · rintro ⟨kv, hm, rfl, hb⟩; exact ⟨kv, ⟨hm, hb⟩, rfl⟩

lemma mem_snap_idle {u : String} {reg : Registry} {ts : Int} :
    u ∈ (prune_and_snapshot reg ts).1.2
      ↔ ∃ kv ∈ reg, kv.1 = u ∧ idleB (ts - LAST_SEEN_TTL_SECONDS)
          (ts - IDLE_THRESHOLD_SECONDS) kv = true := by
  rw [snap_idle, mem_sortAsc]
  simp only [List.mem_map, List.mem_filter]
  constructor
  · rintro ⟨kv, ⟨hm, hb⟩, rfl⟩; exact ⟨kv, hm, rfl, hb⟩
  · rintro ⟨kv, hm, rfl, hb⟩; exact ⟨kv, ⟨hm, hb⟩, rfl⟩

lemma prune_snd {reg : Registry} (ts : Int) (h : WF reg) :
    (prune_and_snapshot reg ts).2
      = reg.filter (fun kv => !staleB (ts - LAST_SEEN_TTL_SECONDS) kv) := by
  have hrw : (prune_and_snapshot reg ts).2
      = ((reg.filter (staleB (ts - LAST_SEEN_TTL_SECONDS))).map Prod.fst).foldl
          dictPop reg := by
    simp [prune_and_snapshot, classifyLoop_stale]
  rw [hrw, foldl_dictPop_eq_filter _ _ h]
  apply List.filter_congr
  intro kv hmem
  by_cases hs : staleB (ts - LAST_SEEN_TTL_SECONDS) kv = true
  · have hk : kv.1 ∈ (reg.filter (staleB (ts - LAST_SEEN_TTL_SECONDS))).map Prod.fst :=
      List.mem_map_of_mem _ (List.mem_filter.mpr ⟨hmem, hs⟩)
    simp [hs, hk]
  · have hk : kv.1 ∉ (reg.filter (staleB (ts - LAST_SEEN_TTL_SECONDS))).map Prod.fst := by
      intro hcon
      obtain ⟨kv2, hkv2, heq⟩ := List.mem_map.mp hcon
      obtain ⟨hmem2, hs2⟩ := List.mem_filter.mp hkv2
      rw [key_inj h hmem2 hmem heq] at hs2
      exact hs hs2
    simp [Bool.not_eq_true] at hs
    simp [hs, hk]

lemma mem_keys_iff {reg : Registry} {k : String} :
    k ∈ keys reg ↔ ∃ kv ∈ reg, kv.1 = k := by
  simp [keys, List.mem_map]

lemma mem_dictSet (reg : Registry) (uid : String) (p : Presence) :
    (uid, p) ∈ dictSet reg uid p := by
  unfold dictSet
  by_cases hc : (keys reg).contains uid
  · rw [if_pos hc]
    have : uid ∈ keys reg := by simpa using hc
    obtain ⟨kv, hkv, heq⟩ := mem_keys_iff.mp this
    exact List.mem_map.mpr ⟨kv, hkv, by simp [heq]⟩
  · rw [if_neg hc]
    simp

lemma dictGet_map_self (reg : Registry) (uid : String) (p : Presence)
    (hc : uid ∈ keys reg) :
    dictGet (reg.map (fun kv => if kv.1 = uid then (uid, p) else kv)) uid = some p := by
  induction reg with
  | nil => cases hc
  | cons kv rest ih =>
    by_cases hk : kv.1 = uid
    · simp [dictGet, hk, List.find?]
    · have h2 : uid ∈ keys rest := by
        rcases mem_keys_iff.mp hc with ⟨kv2, hkv2, heq⟩
        rcases List.mem_cons.mp hkv2 with rfl | hmem
        · exact absurd heq hk
        · exact mem_keys_iff.mpr ⟨kv2, hmem, heq⟩
      have hne : ¬ kv.1 = uid := hk
      simpa [dictGet, List.map_cons, List.find?, hne] using ih h2

lemma dictGet_append_self (reg : Registry) (uid : String) (p : Presence)
    (hc : uid ∉ keys reg) :
    dictGet (reg ++ [(uid, p)]) uid = some p := by
  induction reg with
  | nil => simp [dictGet, List.find?]
  | cons kv rest ih =>
    have hk : ¬ kv.1 = uid := by
      intro h; exact hc (mem_keys_iff.mpr ⟨kv, List.mem_cons_self _ _, h⟩)
    have h2 : uid ∉ keys rest := by
      intro h; rcases mem_keys_iff.mp h with ⟨kv2, hm, he⟩
      exact hc (mem_keys_iff.mpr ⟨kv2, List.mem_cons_of_mem _ hm, he⟩)
    simpa [dictGet, List.find?, hk] using ih h2

lemma dictGet_dictSet_self (reg : Registry) (uid : String) (p : Presence) :
    dictGet (dictSet reg uid p) uid = some p := by
  unfold dictSet
  by_cases hc : (keys reg).contains uid
  · rw [if_pos hc]
    exact dictGet_map_self reg uid p (by simpa using hc)
  · rw [if_neg hc]
    exact dictGet_append_self reg uid p (by simpa using hc)

lemma dictGet_cons (kv : String × Presence) (rest : Registry) (v : String) :
    dictGet (kv :: rest) v = if kv.1 = v then some kv.2 else dictGet rest v := by
  unfold dictGet
  by_cases h : kv.1 = v
  · rw [List.find?_cons_of_pos _ (by simp [h]), if_pos h]
    rfl
  · rw [List.find?_cons_of_neg _ (by simp [h]), if_neg h]

lemma dictGet_map_ne (reg : Registry) (uid v : String) (p : Presence)
    (hv : v ≠ uid) :
    dictGet (reg.map (fun kv => if kv.1 = uid then (uid, p) else kv)) v
      = dictGet reg v := by
  induction reg with
  | nil => rfl
  | cons kv rest ih =>
    rw [List.map_cons, dictGet_cons, dictGet_cons]
    by_cases hk : kv.1 = uid
    · have h1 : ¬ (uid = v) := fun h => hv h.symm
      have h2 : ¬ (kv.1 = v) := by rw [hk]; exact h1
      rw [if_pos hk]
      simpa [h1, h2] using ih
    · rw [if_neg hk]
      by_cases h2 : kv.1 = v
      · simp [h2]
      · simpa [h2] using ih

lemma dictGet_append_ne (reg : Registry) (uid v : String) (p : Presence)
    (hv : v ≠ uid) :
    dictGet (reg ++ [(uid, p)]) v = dictGet reg v := by
  induction reg with
  | nil =>
    have h1 : ¬ (uid = v) := fun h => hv h.symm
    simp [dictGet, List.find?, h1]
  | cons kv rest ih =>
    rw [List.cons_append, dictGet_cons, dictGet_cons]
    by_cases h2 : kv.1 = v
    · simp [h2]
    · simpa [h2] using ih

lemma dictGet_dictSet_ne (reg : Registry) (uid v : String) (p : Presence)
    (hv : v ≠ uid) :
    dictGet (dictSet reg uid p) v = dictGet reg v := by
  unfold dictSet
  by_cases hc : (keys reg).contains uid
  · rw [if_pos hc]; exact dictGet_map_ne reg uid v p hv
  · rw [if_neg hc]; exact dictGet_append_ne reg uid v p hv

lemma keys_map_set (reg : Registry) (uid : String) (p : Presence) :
    keys (reg.map (fun kv => if kv.1 = uid then (uid, p) else kv)) = keys reg := by
  unfold keys
  rw [List.map_map]
  apply List.map_congr_left
  intro kv _
  by_cases hk : kv.1 = uid <;> simp [Function.comp, hk]

lemma keys_dictSet (reg : Registry) (uid : String) (p : Presence) :
    ∀ k ∈ keys reg, k ∈ keys (dictSet reg uid p) := by
  intro k hk
  unfold dictSet
  by_cases hc : (keys reg).contains uid
  · rw [if_pos hc, keys_map_set]; exact hk
  · rw [if_neg hc]
    unfold keys at hk ⊢
    rw [List.map_append]
    exact List.mem_append_left _ hk

/-- C3: `record_heartbeat(id, now, a)` stores `last_seen = now` and
`last_activity = a` when `a` is non-null (else `now`), fully overwriting any
previous entry even with smaller values; concretely, heartbeats at
`(100, 100)` then `(200, 50)` make `snapshot(200)` classify `"u"` as idle. -/
theorem record_heartbeat_overwrites (reg : Registry) (uid : String) (now : Int)
    (a : Option Int) :
    dictGet (update_presence reg uid now a) uid
      = some { last_seen := now, last_activity := a.getD now } ∧
    "u" ∈ (prune_and_snapshot
        (update_presence (update_presence [] "u" 100 (some 100)) "u" 200 (some 50))
        200).1.2 := by
  constructor
  · have hu : update_presence reg uid now a
        = dictSet reg uid { last_seen := now, last_activity := a.getD now } := by
      cases a <;> rfl
    rw [hu, dictGet_dictSet_self]
  · decide

/-- C5: after `record_heartbeat(id, t, None)` on any prior registry, the
immediately following `snapshot(t)` places `id` in the active list. -/
theorem heartbeat_then_snapshot_active (reg : Registry) (uid : String) (t : Int) :
    uid ∈ (prune_and_snapshot (update_presence reg uid t none) t).1.1 := by
  have hu : update_presence reg uid t none = dictSet reg uid ⟨t, t⟩ := rfl
  rw [hu]
  apply mem_snap_active.mpr
  refine ⟨(uid, ⟨t, t⟩), mem_dictSet reg uid ⟨t, t⟩, rfl, ?_⟩
  simp only [activeB, staleB, Bool.and_eq_true, Bool.not_eq_true', decide_eq_false_iff_not,
    decide_eq_true_eq, LAST_SEEN_TTL_SECONDS, IDLE_THRESHOLD_SECONDS]
  omega

/-- C6: `record_heartbeat` always succeeds (it is a total function), leaves
the entry of every other identifier unchanged, and never removes any entry
(every key of the registry survives; no eviction on heartbeat). -/
theorem record_heartbeat_frame (reg : Registry) (uid : String) (ts : Int)
    (a : Option Int) :
    (∀ v : String, v ≠ uid →
        dictGet (update_presence reg uid ts a) v = dictGet reg v) ∧
    (∀ k ∈ keys reg, k ∈ keys (update_presence reg uid ts a)) := by
  have hu : update_presence reg uid ts a
      = dictSet reg uid { last_seen := ts, last_activity := a.getD ts } := by
    cases a <;> rfl
  rw [hu]
  exact ⟨fun v hv => dictGet_dictSet_ne reg uid v _ hv, keys_dictSet reg uid _⟩

/-- Witness for C6 at the concrete registry `[("v", (1, 1))]`. -/
theorem record_heartbeat_frame_witness :
    dictGet (update_presence [("v", ⟨1, 1⟩)] "u" 5 none) "v"
        = dictGet [("v", ⟨1, 1⟩)] "v" ∧
    "v" ∈ keys (update_presence [("v", ⟨1, 1⟩)] "u" 5 none) :=
  ⟨(record_heartbeat_frame [("v", ⟨1, 1⟩)] "u" 5 none).1 "v" (by decide),
   (record_heartbeat_frame [("v", ⟨1, 1⟩)] "u" 5 none).2 "v" (by decide)⟩

lemma active_of_mem_snap {reg : Registry} (h : WF reg) {kv : String × Presence}
    (hmem : kv ∈ reg) {ts : Int}
    (hu : kv.1 ∈ (prune_and_snapshot reg ts).1.1) :
    activeB (ts - LAST_SEEN_TTL_SECONDS) (ts - IDLE_THRESHOLD_SECONDS) kv = true := by
  obtain ⟨kv2, hm2, heq, hb⟩ := mem_snap_active.mp hu
  rwa [key_inj h hm2 hmem heq] at hb

lemma idle_of_mem_snap {reg : Registry} (h : WF reg) {kv : String × Presence}
    (hmem : kv ∈ reg) {ts : Int}
    (hu : kv.1 ∈ (prune_and_snapshot reg ts).1.2) :
    idleB (ts - LAST_SEEN_TTL_SECONDS) (ts - IDLE_THRESHOLD_SECONDS) kv = true := by
  obtain ⟨kv2, hm2, heq, hb⟩ := mem_snap_idle.mp hu
  rwa [key_inj h hm2 hmem heq] at hb

lemma not_stale_of_mem_keys {reg : Registry} (h : WF reg) {kv : String × Presence}
    (hmem : kv ∈ reg) {ts : Int}
    (hk : kv.1 ∈ keys (prune_and_snapshot reg ts).2) :
    staleB (ts - LAST_SEEN_TTL_SECONDS) kv = false := by
  rw [prune_snd ts h] at hk
  obtain ⟨kv2, hm2, heq⟩ := mem_keys_iff.mp hk
  obtain ⟨hmem2, hb⟩ := List.mem_filter.mp hm2
  rw [key_inj h hmem2 hmem heq] at hb
  simpa using hb

/-- C1: in `snapshot(now)` every entry with `last_seen < now - 60` is removed
from the registry and appears in neither output list, and every surviving
entry stays in the registry and appears in exactly one output list — active
if `last_activity >= now - 60`, otherwise idle. -/
theorem snapshot_prunes_and_classifies (reg : Registry) (now : Int) (h : WF reg)
    (kv : String × Presence) (hmem : kv ∈ reg) :
    (kv.2.last_seen < now - LAST_SEEN_TTL_SECONDS →
       kv.1 ∉ keys (prune_and_snapshot reg now).2 ∧
       kv.1 ∉ (prune_and_snapshot reg now).1.1 ∧
       kv.1 ∉ (prune_and_snapshot reg now).1.2) ∧
    (¬ kv.2.last_seen < now - LAST_SEEN_TTL_SECONDS →
       kv ∈ (prune_and_snapshot reg now).2 ∧
       (kv.2.last_activity ≥ now - IDLE_THRESHOLD_SECONDS →
          kv.1 ∈ (prune_and_snapshot reg now).1.1 ∧
          kv.1 ∉ (prune_and_snapshot reg now).1.2) ∧
       (¬ kv.2.last_activity ≥ now - IDLE_THRESHOLD_SECONDS →
          kv.1 ∈ (prune_and_snapshot reg now).1.2 ∧
          kv.1 ∉ (prune_and_snapshot reg now).1.1)) := by
  constructor
  · intro hstale
    refine ⟨?_, ?_, ?_⟩
    · intro hk
      have := not_stale_of_mem_keys h hmem hk
      simp [staleB, hstale] at this
    · intro hu
      have := active_of_mem_snap h hmem hu
      simp [activeB, staleB, hstale] at this
    · intro hu
      have := idle_of_mem_snap h hmem hu
      simp [idleB, staleB, hstale] at this
  · intro hlive
    refine ⟨?_, fun hact => ⟨?_, ?_⟩, fun hidle => ⟨?_, ?_⟩⟩
    · rw [prune_snd now h]
      exact List.mem_filter.mpr ⟨hmem, by simp [staleB, hlive]⟩
    · exact mem_snap_active.mpr ⟨kv, hmem, rfl, by simp [activeB, staleB, hlive, hact]⟩
    · intro hu
      have := idle_of_mem_snap h hmem hu
      simp [idleB, staleB, hlive, hact] at this
    · exact mem_snap_idle.mpr ⟨kv, hmem, rfl, by simp [idleB, staleB, hlive, hidle]⟩
    · intro hu
      have := active_of_mem_snap h hmem hu
      simp [activeB, staleB, hlive, hidle] at this

/-- Witness for C1: at time 100 the stale entry `"a"` is dropped everywhere
and the fresh entry `"b"` survives into the active list. -/
theorem snapshot_prunes_and_classifies_witness :
    ("a" ∉ keys (prune_and_snapshot [("a", ⟨0, 0⟩), ("b", ⟨100, 100⟩)] 100).2 ∧
     "a" ∉ (prune_and_snapshot [("a", ⟨0, 0⟩), ("b", ⟨100, 100⟩)] 100).1.1 ∧
     "a" ∉ (prune_and_snapshot [("a", ⟨0, 0⟩), ("b", ⟨100, 100⟩)] 100).1.2) ∧
    (("b", (⟨100, 100⟩ : Presence)) ∈ (prune_and_snapshot [("a", ⟨0, 0⟩), ("b", ⟨100, 100⟩)] 100).2 ∧
     "b" ∈ (prune_and_snapshot [("a", ⟨0, 0⟩), ("b", ⟨100, 100⟩)] 100).1.1) :=
  ⟨(snapshot_prunes_and_classifies [("a", ⟨0, 0⟩), ("b", ⟨100, 100⟩)] 100
      (by unfold WF; decide) ("a", ⟨0, 0⟩) (by decide)).1 (by decide),
   ((snapshot_prunes_and_classifies [("a", ⟨0, 0⟩), ("b", ⟨100, 100⟩)] 100
      (by unfold WF; decide) ("b", ⟨100, 100⟩) (by decide)).2 (by decide)).1,
   (((snapshot_prunes_and_classifies [("a", ⟨0, 0⟩), ("b", ⟨100, 100⟩)] 100
      (by unfold WF; decide) ("b", ⟨100, 100⟩) (by decide)).2 (by decide)).2.1 (by decide)).1⟩

lemma sortAsc_strict {l : List String} (hn : l.Nodup) :
    (sortAsc l).Sorted (· < ·) ∧ (sortAsc l).Nodup := by
  have hs : (sortAsc l).Sorted (· ≤ ·) := List.sorted_insertionSort _ l
  have hnd : (sortAsc l).Nodup := ((List.perm_insertionSort _ l).nodup_iff).mpr hn
  exact ⟨hs.lt_of_le hnd, hnd⟩

lemma nodup_keys_filter {reg : Registry} (h : WF reg) (p : String × Presence → Bool) :
    ((reg.filter p).map Prod.fst).Nodup :=
  List.Nodup.sublist ((List.filter_sublist reg).map Prod.fst) h

/-- C4: both lists returned by `snapshot(now)` are strictly sorted in
ascending lexicographic order and contain no duplicate identifiers. -/
theorem snapshot_lists_strictly_sorted (reg : Registry) (now : Int) (h : WF reg) :
    ((prune_and_snapshot reg now).1.1.Sorted (· < ·) ∧
     (prune_and_snapshot reg now).1.1.Nodup) ∧
    ((prune_and_snapshot reg now).1.2.Sorted (· < ·) ∧
     (prune_and_snapshot reg now).1.2.Nodup) := by
  rw [snap_active, snap_idle]
  exact ⟨sortAsc_strict (nodup_keys_filter h _), sortAsc_strict (nodup_keys_filter h _)⟩

/-- Witness for C4 at a concrete two-entry registry. -/
theorem snapshot_lists_strictly_sorted_witness :
    (((prune_and_snapshot [("b", ⟨9, 9⟩), ("a", ⟨9, 0⟩)] 10).1.1.Sorted (· < ·) ∧
      (prune_and_snapshot [("b", ⟨9, 9⟩), ("a", ⟨9, 0⟩)] 10).1.1.Nodup) ∧
     ((prune_and_snapshot [("b", ⟨9, 9⟩), ("a", ⟨9, 0⟩)] 10).1.2.Sorted (· < ·) ∧
      (prune_and_snapshot [("b", ⟨9, 9⟩), ("a", ⟨9, 0⟩)] 10).1.2.Nodup)) :=
  snapshot_lists_strictly_sorted [("b", ⟨9, 9⟩), ("a", ⟨9, 0⟩)] 10 (by unfold WF; decide)

/-- C10: `snapshot` is idempotent at a fixed time: a second `snapshot(now)`
with no intervening heartbeat returns the same `(active, idle)` lists and
removes no entries from the registry. -/
theorem snapshot_idempotent (reg : Registry) (now : Int) (h : WF reg) :
    (prune_and_snapshot (prune_and_snapshot reg now).2 now).1
      = (prune_and_snapshot reg now).1 ∧
    (prune_and_snapshot (prune_and_snapshot reg now).2 now).2
      = (prune_and_snapshot reg now).2 := by
  have h2 : WF (prune_and_snapshot reg now).2 := by
    rw [prune_snd now h]; exact WF_filter _ h
  have hreg : (prune_and_snapshot (prune_and_snapshot reg now).2 now).2
      = (prune_and_snapshot reg now).2 := by
    rw [prune_snd now h2, prune_snd now h, List.filter_filter]
    apply List.filter_congr
    intro kv _
    cases hs : staleB (now - LAST_SEEN_TTL_SECONDS) kv <;> simp [hs]
  have hact : (prune_and_snapshot (prune_and_snapshot reg now).2 now).1.1
      = (prune_and_snapshot reg now).1.1 := by
    rw [snap_active, snap_active, prune_snd now h, List.filter_filter]
    have : reg.filter (fun kv => activeB (now - LAST_SEEN_TTL_SECONDS)
          (now - IDLE_THRESHOLD_SECONDS) kv && !staleB (now - LAST_SEEN_TTL_SECONDS) kv)
        = reg.filter (activeB (now - LAST_SEEN_TTL_SECONDS)
            (now - IDLE_THRESHOLD_SECONDS)) := by
      apply List.filter_congr
      intro kv _
      cases hs : staleB (now - LAST_SEEN_TTL_SECONDS) kv <;> simp [activeB, hs]
    rw [this]

  have hidl : (prune_and_snapshot (prune_and_snapshot reg now).2 now).1.2
      = (prune_and_snapshot reg now).1.2 := by
    rw [snap_idle, snap_idle, prune_snd now h, List.filter_filter]
    have : reg.filter (fun kv => idleB (now - LAST_SEEN_TTL_SECONDS)
          (now - IDLE_THRESHOLD_SECONDS) kv && !staleB (now - LAST_SEEN_TTL_SECONDS) kv)
        = reg.filter (idleB (now - LAST_SEEN_TTL_SECONDS)
            (now - IDLE_THRESHOLD_SECONDS)) := by
      apply List.filter_congr
      intro kv _
      cases hs : staleB (now - LAST_SEEN_TTL_SECONDS) kv <;> simp [idleB, hs]
    rw [this]
  exact ⟨Prod.ext hact hidl, hreg⟩

/-- Witness for C10 at a concrete registry with one fresh and one stale
entry. -/
theorem snapshot_idempotent_witness :
    (prune_and_snapshot (prune_and_snapshot [("u", ⟨5, 5⟩), ("w", ⟨-100, 5⟩)] 10).2 10).1
      = (prune_and_snapshot [("u", ⟨5, 5⟩), ("w", ⟨-100, 5⟩)] 10).1 ∧
    (prune_and_snapshot (prune_and_snapshot [("u", ⟨5, 5⟩), ("w", ⟨-100, 5⟩)] 10).2 10).2
      = (prune_and_snapshot [("u", ⟨5, 5⟩), ("w", ⟨-100, 5⟩)] 10).2 :=
  snapshot_idempotent [("u", ⟨5, 5⟩), ("w", ⟨-100, 5⟩)] 10 (by unfold WF; decide)

/-- Counterexample to C2 as stated: after `record_heartbeat("u", 100, 100)`,
`snapshot(160)` does NOT evict `"u"` — staleness requires
`last_seen < 160 - 60 = 100`, and `100 < 100` is false, so `"u"` is still
returned (in the active list, since `100 >= 100`). -/
theorem snapshot_at_160_still_present :
    "u" ∈ (prune_and_snapshot (update_presence [] "u" 100 (some 100)) 160).1.1 := by
  decide

/-- C2 (amended): `record_heartbeat("u", 100, 100)`; `snapshot(159)` → `"u"`
present; `snapshot(160)` → `"u"` still present (eviction requires
`last_seen < now - 60`, which first holds at 161); `snapshot(161)` → `"u"`
absent from both lists and removed from the registry. -/
theorem eviction_strictly_after_ttl :
    ("u" ∈ (prune_and_snapshot (update_presence [] "u" 100 (some 100)) 159).1.1 ∨
     "u" ∈ (prune_and_snapshot (update_presence [] "u" 100 (some 100)) 159).1.2) ∧
    ("u" ∈ (prune_and_snapshot (update_presence [] "u" 100 (some 100)) 160).1.1 ∨
     "u" ∈ (prune_and_snapshot (update_presence [] "u" 100 (some 100)) 160).1.2) ∧
    ("u" ∉ (prune_and_snapshot (update_presence [] "u" 100 (some 100)) 161).1.1 ∧
     "u" ∉ (prune_and_snapshot (update_presence [] "u" 100 (some 100)) 161).1.2 ∧
     "u" ∉ keys (prune_and_snapshot (update_presence [] "u" 100 (some 100)) 161).2) := by
  refine ⟨Or.inl (by decide), Or.inl (by decide), by decide, by decide, by decide⟩

lemma event_stream_append_fail (reg : Registry) (pre : List StepOutcome) (terr : Int)
    (rest : List StepOutcome) (hpre : ∀ s ∈ pre, ∃ t, s = StepOutcome.tick t) :
    (event_stream reg (pre ++ StepOutcome.fail terr :: rest)).1
      = (event_stream reg pre).1
        ++ [mkPayload terr
              (prune_and_snapshot (event_stream reg pre).2 terr).1.1
              (prune_and_snapshot (event_stream reg pre).2 terr).1.2
              (some "internal_error")] := by
  induction pre generalizing reg with
  | nil => simp [event_stream]
  | cons s pre ih =>
    obtain ⟨t, rfl⟩ := hpre s (List.mem_cons_self s pre)
    simp only [List.cons_append, event_stream, List.append_eq]
    rw [ih _ (fun s2 hs2 => hpre s2 (List.mem_cons_of_mem _ hs2))]

lemma event_stream_ticks_error_none (reg : Registry) (pre : List StepOutcome)
    (hpre : ∀ s ∈ pre, ∃ t, s = StepOutcome.tick t) :
    ∀ e ∈ (event_stream reg pre).1, e.error = none := by
  induction pre generalizing reg with
  | nil => simp [event_stream]
  | cons s pre ih =>
    obtain ⟨t, rfl⟩ := hpre s (List.mem_cons_self s pre)
    intro e he
    simp only [event_stream, List.mem_cons] at he
    rcases he with rfl | he
    · rfl
    · exact ih _ (fun s2 hs2 => hpre s2 (List.mem_cons_of_mem _ hs2)) e he

lemma event_stream_totals (reg : Registry) (steps : List StepOutcome) :
    ∀ e ∈ (event_stream reg steps).1,
      e.online_total = e.active_total + e.idle_total ∧
      e.active_total = e.active_uids.length ∧
      e.idle_total = e.idle_uids.length := by
  induction steps generalizing reg with
  | nil => simp [event_stream]
  | cons s steps ih =>
    cases s with
    | tick t =>
      intro e he
      simp only [event_stream, List.mem_cons] at he
      rcases he with rfl | he
      · exact ⟨rfl, rfl, rfl⟩
      · exact ih _ e he
    | fail terr =>
      intro e he
      simp only [event_stream, List.mem_cons, List.not_mem_nil, or_false] at he
      subst he
      exact ⟨rfl, rfl, rfl⟩

/-- C8: when an internal failure hits a subscriber loop after any run of
normal ticks, the stream is the normal events followed by exactly one final
event — a snapshot freshly recomputed from the registry state at that point,
flagged `error = "internal_error"` — and nothing after it (the remaining
schedule is never emitted); normal events carry no error flag, and in every
emitted event `online_total = active_total + idle_total` with the totals
equal to the lengths of the respective lists. -/
theorem event_stream_error_terminal (reg : Registry) (pre : List StepOutcome)
    (terr : Int) (rest : List StepOutcome)
    (hpre : ∀ s ∈ pre, ∃ t, s = StepOutcome.tick t) :
    (event_stream reg (pre ++ StepOutcome.fail terr :: rest)).1
      = (event_stream reg pre).1
        ++ [mkPayload terr
              (prune_and_snapshot (event_stream reg pre).2 terr).1.1
              (prune_and_snapshot (event_stream reg pre).2 terr).1.2
              (some "internal_error")] ∧
    (∀ e ∈ (event_stream reg pre).1, e.error = none) ∧
    (∀ steps : List StepOutcome, ∀ e ∈ (event_stream reg steps).1,
       e.online_total = e.active_total + e.idle_total ∧
       e.active_total = e.active_uids.length ∧
       e.idle_total = e.idle_uids.length) :=
  ⟨event_stream_append_fail reg pre terr rest hpre,
   event_stream_ticks_error_none reg pre hpre,
   fun steps => event_stream_totals reg steps⟩

/-- Witness for C8: one normal tick, then a failure at time 5; the scheduled
tick after the failure is never emitted. -/
theorem event_stream_error_terminal_witness :
    (event_stream [("u", ⟨2, 2⟩)]
        ([StepOutcome.tick 3] ++ StepOutcome.fail 5 :: [StepOutcome.tick 7])).1
      = (event_stream [("u", ⟨2, 2⟩)] [StepOutcome.tick 3]).1
        ++ [mkPayload 5
              (prune_and_snapshot (event_stream [("u", ⟨2, 2⟩)] [StepOutcome.tick 3]).2 5).1.1
              (prune_and_snapshot (event_stream [("u", ⟨2, 2⟩)] [StepOutcome.tick 3]).2 5).1.2
              (some "internal_error")] ∧
    (∀ e ∈ (event_stream [("u", ⟨2, 2⟩)] [StepOutcome.tick 3]).1, e.error = none) ∧
    (∀ steps : List StepOutcome, ∀ e ∈ (event_stream [("u", ⟨2, 2⟩)] steps).1,
       e.online_total = e.active_total + e.idle_total ∧
       e.active_total = e.active_uids.length ∧
       e.idle_total = e.idle_uids.length) :=
  event_stream_error_terminal [("u", ⟨2, 2⟩)] [StepOutcome.tick 3] 5 [StepOutcome.tick 7]
    (by
      intro s hs
      simp only [List.mem_singleton] at hs
      exact ⟨3, hs⟩)
